import Mathlib

/-!
Verification development for the matching-and-placement core of the
fankai_utilitaire repository (file `Fankai-Placement.py`): a shallow
embedding of `FileMatcher.find_matches` and `FilePlacer.place_files`
together with the path, dictionary and fuzzy-extraction library calls
they rely on, followed by theorems settling the specified properties.

All string manipulation is done over `List Char` with structural
recursion so that every definition evaluates inside the kernel.
Similarity scores are rationals in the same spirit as the float scores
of `rapidfuzz` (the exact scoring algorithm is an implementation detail
of the library, so the scorer is a parameter of the embedding).
-/

set_option linter.unreachableTactic false
set_option linter.unusedTactic false
set_option linter.unnecessarySeqFocus false

namespace Fankai

/-! ## String helpers (models of Python `str` and `os.path` operations) -/

/-- Model of the Python substring test `needle in hay` on character lists. -/
def containsSub (hay needle : List Char) : Bool :=
  (List.range (hay.length + 1)).any (fun i => needle.isPrefixOf (hay.drop i))

/-- Model of `needle in hay` for strings. -/
def strContains (hay needle : String) : Bool :=
  containsSub hay.toList needle.toList

/-- Lower-casing of a string, one character at a time (model of `str.lower`). -/
def lowerStr (s : String) : String :=
  String.mk (s.toList.map Char.toLower)

/-- Model of `needle in hay.lower()`; every needle in the code is written in
lower case already. -/
def lowerContains (hay needle : String) : Bool :=
  strContains (lowerStr hay) needle

/-- Split a character list on a separator character; structural recursion on
the list being split. -/
def splitOnCharAux (sep : Char) : List Char → List Char → List (List Char)
  | [], acc => [acc.reverse]
  | c :: cs, acc =>
    if c == sep then acc.reverse :: splitOnCharAux sep cs []
    else splitOnCharAux sep cs (c :: acc)

/-- Split a character list on a separator character. -/
def splitOnChar (sep : Char) (cs : List Char) : List (List Char) :=
  splitOnCharAux sep cs []

/-- Join character-list path components with the slash separator. -/
def joinParts : List (List Char) → List Char
  | [] => []
  | [p] => p
  | p :: rest => p ++ '/' :: joinParts rest

/-- Model of `os.path.basename` on slash-separated paths. -/
def basename (p : String) : String :=
  String.mk ((splitOnChar '/' p.toList).getLastD [])

/-- Model of `os.path.dirname` on slash-separated paths. -/
def dirname (p : String) : String :=
  let parts := splitOnChar '/' p.toList
  if parts.length ≤ 1 then "" else String.mk (joinParts parts.dropLast)

/-- Model of `os.path.join` as the code uses it: joining a directory with a
file name. -/
def pathJoin (d f : String) : String :=
  if d = "" then f else d ++ "/" ++ f

/-- Position, within a base name, of the dot starting the extension, following
`os.path.splitext`: the last dot, provided some earlier character of the base
name is not a dot (so purely-dotted prefixes never split). -/
def extDotIdx (b : String) : Option Nat :=
  let cs := b.toList
  ((List.range cs.length).filter (fun i =>
      cs.getD i ' ' == '.' &&
      (List.range i).any (fun j => cs.getD j ' ' != '.'))).getLast?

/-- Stem of a base name under `os.path.splitext`. -/
def splitStem (b : String) : String :=
  match extDotIdx b with
  | some i => String.mk (b.toList.take i)
  | none => b

/-- Extension of a base name under `os.path.splitext`. -/
def splitExtension (b : String) : String :=
  match extDotIdx b with
  | some i => String.mk (b.toList.drop i)
  | none => ""

/-- Model of `os.path.splitext(os.path.basename(p))[0]`. -/
def stemOf (p : String) : String := splitStem (basename p)

/-- Model of `os.path.splitext(p)[1]` on a full path: Python restricts the dot
search to the base name. -/
def extOf (p : String) : String := splitExtension (basename p)

/-! ## Python dictionaries as association lists -/

/-- Lookup in a Python-dict model (association list; keys are unique when the
dict is built through `dictInsert`, so first match is the entry). -/
def dictLookup {α : Type} : List (String × α) → String → Option α
  | [], _ => none
  | (k, v) :: rest, q => if k == q then some v else dictLookup rest q

/-- Insertion with Python dict semantics: an existing key keeps its position
and takes the new value, a new key goes to the end. -/
def dictInsert {α : Type} : List (String × α) → String → α → List (String × α)
  | [], k, v => [(k, v)]
  | (k0, v0) :: rest, k, v =>
    if k0 == k then (k0, v) :: rest else (k0, v0) :: dictInsert rest k v

-- sanity checks on the helpers
example : basename "a/b/c.nfo" = "c.nfo" := by decide
example : dirname "a/b/c.nfo" = "a/b" := by decide
example : dirname "c.nfo" = "" := by decide
example : stemOf "a/b/One Piece 01.nfo" = "One Piece 01" := by decide
example : extOf "a/b/video.mkv" = ".mkv" := by decide
example : splitStem ".bashrc" = ".bashrc" ∧ splitExtension ".bashrc" = "" := by decide
example : lowerStr "One Piece" = "one piece" := by decide
example : lowerContains "d/One Piece Pilot.mkv" "one piece" = true := by decide
example : lowerContains "d/Naruto 01.mkv" "one piece" = false := by decide
example : dictLookup (dictInsert (dictInsert [] "a" 1) "a" 2) "a" = some 2 := by decide

/-! ## Model of the rapidfuzz extraction calls

Scores are rationals; the scorer (`fuzz.ratio` in the code) is kept abstract
as a parameter, since the spec declares the exact metric an implementation
detail. Where a claim needs the range of `fuzz.ratio`, the bound appears as
an explicit hypothesis. -/

/-- Stable insertion into a list sorted by score descending: the new element
goes before the first element whose score does not exceed it, so earlier list
positions win ties. -/
def insertDesc (x : String × ℚ) : List (String × ℚ) → List (String × ℚ)
  | [] => [x]
  | y :: ys => if y.2 ≤ x.2 then x :: y :: ys else y :: insertDesc x ys

/-- Sort score pairs by score descending, keeping original order on ties. -/
def sortScoreDesc (l : List (String × ℚ)) : List (String × ℚ) :=
  l.foldr insertDesc []

/-- Model of `rapidfuzz.process.extract(query, choices, scorer=ratio,
score_cutoff=cutoff, limit=limit)`: score every choice, keep those reaching
the cutoff (an absent cutoff keeps everything), order best first and return
at most `limit` of them. The code never passes a `limit` argument at the
fan-out call site, so the library default `limit=5` applies there. -/
def extractMulti (ratio : String → String → ℚ) (q : String) (choices : List String)
    (cutoff : Option ℚ) (limit : Nat) : List (String × ℚ) :=
  (sortScoreDesc ((choices.map (fun k => (k, ratio q k))).filter
      (fun p => match cutoff with | none => true | some c => decide (c ≤ p.2)))).take limit

/-- Model of `rapidfuzz.process.extractOne(query, choices, scorer=ratio)` with
no cutoff: the first choice achieving the maximal score (later choices replace
the current best only on a strictly greater score), or `none` when `choices`
is empty. -/
def extractBest (ratio : String → String → ℚ) (q : String) (choices : List String) :
    Option (String × ℚ) :=
  choices.foldl (fun best k =>
    match best with
    | none => some (k, ratio q k)
    | some (b, s) => if s < ratio q k then some (k, ratio q k) else some (b, s)) none

/-! ## FileMatcher.find_matches (lines 277 to 328 of Fankai-Placement.py) -/

/-- Outcome of one iteration of the per-video loop of
`FileMatcher.find_matches`: which of the four branches produced the entry
recorded for that video. -/
inductive MatchOutcome : Type
  | override : String → MatchOutcome
  | fanout : List (String × ℚ) → MatchOutcome
  | standard : String → ℚ → MatchOutcome
  | unmatched : List (String × ℚ) → MatchOutcome
deriving DecidableEq, Repr

/-- Model of lines 314 to 325: the shared fall-through evaluated whenever no
earlier branch set `found_match` — the best match over the non-One-Piece
choices `nod` if it reaches the threshold, else an unmatched entry carrying
the top-5 suggestions over the whole choice dict `nb`. -/
def standardOrUnmatched (ratio : String → String → ℚ) (nb nod : List (String × String))
    (T : ℚ) (vb : String) : MatchOutcome :=
  let fallback := MatchOutcome.unmatched (extractMulti ratio vb (nb.map Prod.fst) none 5)
  match extractBest ratio vb (nod.map Prod.fst) with
  | some (k, s) =>
    if T ≤ s then MatchOutcome.standard ((dictLookup nod k).getD "") s else fallback
  | none => fallback

/-- Body of the per-video loop of `FileMatcher.find_matches` (lines 294 to
325). `rd` is the rename dict, `nb` the nfo-basename dict, `opd` and `nod`
its One-Piece and non-One-Piece restrictions. The rename branch and the
One-Piece branch form an if/elif pair in the code, so a rename hit with a
missing target falls through to the standard branch, never to the fan-out. -/
def matchSource (ratio : String → String → ℚ) (rd nb opd nod : List (String × String))
    (T : ℚ) (video : String) : MatchOutcome :=
  let vb := stemOf video
  match dictLookup rd vb with
  | some tgt =>
    match dictLookup nb tgt with
    | some nfo => MatchOutcome.override nfo
    | none => standardOrUnmatched ratio nb nod T vb
  | none =>
    if lowerContains vb "one piece" then
      let pm := extractMulti ratio vb (opd.map Prod.fst) (some T) 5
      if pm.isEmpty then standardOrUnmatched ratio nb nod T vb
      else MatchOutcome.fanout (pm.map (fun m => ((dictLookup opd m.1).getD "", m.2)))
    else standardOrUnmatched ratio nb nod T vb

/-- Model of line 287: the dict from nfo basename (without extension) to nfo
path; a duplicate basename keeps its first position and takes the later path. -/
def buildNfoBasenames (nfos : List String) : List (String × String) :=
  nfos.foldl (fun d nfo => dictInsert d (stemOf nfo) nfo) []

/-- Aggregation of the per-video outcomes into the three returned collections
`(standard_matches, unmatched, one_piece_matches)`, in video order. A rename
hit is recorded with the literal score 101 (line 301). The One-Piece dict is
modelled as an association list; the videos handed to the matcher are
pairwise-distinct paths produced by `os.walk`, for which the list coincides
with the Python dict. -/
def findMatchesAux (ratio : String → String → ℚ) (rd nb opd nod : List (String × String))
    (T : ℚ) :
    List String →
      List (String × String × ℚ) × List (String × List (String × ℚ)) ×
        List (String × List (String × ℚ))
  | [] => ([], [], [])
  | v :: vs =>
    let rest := findMatchesAux ratio rd nb opd nod T vs
    match matchSource ratio rd nb opd nod T v with
    | MatchOutcome.override nfo => ((v, nfo, 101) :: rest.1, rest.2.1, rest.2.2)
    | MatchOutcome.fanout l => (rest.1, rest.2.1, (v, l) :: rest.2.2)
    | MatchOutcome.standard nfo s => ((v, nfo, s) :: rest.1, rest.2.1, rest.2.2)
    | MatchOutcome.unmatched sug => (rest.1, (v, sug) :: rest.2.1, rest.2.2)

/-- Model of `FileMatcher.find_matches(video_files, nfo_files, rename_dict,
threshold=95)`: returns `(standard_matches, unmatched, one_piece_matches)`. -/
def find_matches (ratio : String → String → ℚ) (videos nfos : List String)
    (rd : List (String × String)) (T : ℚ := 95) :
    List (String × String × ℚ) × List (String × List (String × ℚ)) ×
      List (String × List (String × ℚ)) :=
  let nb := buildNfoBasenames nfos
  let opd := nb.filter (fun p => lowerContains p.1 "one piece")
  let nod := nb.filter (fun p => !(lowerContains p.1 "one piece"))
  findMatchesAux ratio rd nb opd nod T videos

/-! ## Concrete fixtures used by counterexamples and witnesses -/

/-- Raw score table for the gating scenario: one video basename scored
against a gated (Yabai) slot and an ungated slot. -/
def tableA (a b : String) : ℚ :=
  if a == "one piece pilot" && b == "one piece kai p" then 97
  else if a == "one piece pilot" && b == "one piece yabai p" then 96
  else if a == b then 100 else 0

/-- Concrete scorer for the gating scenario, capped at 100 like any
normalized similarity ratio. -/
def witRatioA (a b : String) : ℚ := min (tableA a b) 100

/-- Slots of the gating scenario: a Yabai destination and a plain one. -/
def nfosA : List String :=
  ["m/one piece yabai/one piece yabai p.nfo", "m/one piece kai/one piece kai p.nfo"]

/-- Source of the gating scenario: a One Piece release without the Yabai tag. -/
def videoA : String := "d/one piece pilot.mkv"

-- sanity: the fan-out list contains both slots, the gated one included
example :
    (find_matches witRatioA [videoA] nfosA [] 95).2.2 =
      [(videoA, [("m/one piece kai/one piece kai p.nfo", 97),
                 ("m/one piece yabai/one piece yabai p.nfo", 96)])] := by decide

/-! ## FilePlacer.place_files (lines 340 to 397 of Fankai-Placement.py)

The filesystem is modelled as an association list from path to file content;
`place_files` only ever appends fresh paths. Whether the single link or copy
call for a triple succeeds is abstracted by the oracle `opOk`; `content`
gives each source file's bytes, which a successful placement of either mode
carries to the destination unchanged. The two modes fail differently, and
the model keeps that difference: in copy mode an error raised by
`shutil.copy2` propagates into the per-triple `except` branch of
`place_files` (line 393), while in hardlink mode an `OSError` raised by
`os.link` — and a `CalledProcessError` of the Windows `fsutil` fallback —
is caught and swallowed INSIDE `FileSystemManager.create_atomic_link`
(lines 237 to 245), so control returns normally to `place_files` and the
appends at lines 387 to 391 still run although no link was created. The
oracle models the link-or-fallback respectively copy call itself; the
`os.makedirs` preceding it is taken to succeed. -/

/-- State threaded through one `place_files` invocation: the filesystem, the
`placed_files` list, the `updated_series` accumulator, the per-triple error
log of the `except` branch (line 394), the warning log of the Yabai gate
(line 367), and the error log written inside `create_atomic_link` when a
hardlink attempt fails and the error is swallowed (lines 240 and 245). -/
structure PlaceState where
  fs : List (String × String)
  placed : List String
  series : List String
  errors : List (String × String)
  gateLogs : List (String × String)
  linkErrors : List (String × String)
deriving DecidableEq, Repr

/-- Fresh state for one `place_files` invocation over filesystem `fs0`:
the accumulators of lines 345 to 346 start empty. -/
def PlaceState.init (fs0 : List (String × String)) : PlaceState :=
  ⟨fs0, [], [], [], [], []⟩

/-- Lines 358, 359 and 364 to 366: the Yabai gate fires when the video base
name contains "one piece" but not "yabai" while the nfo path contains
"one piece yabai". -/
def gateCond (v nfo : String) : Bool :=
  lowerContains (basename v) "one piece" && lowerContains nfo "one piece yabai" &&
    !(lowerContains (basename v) "yabai")

/-- Lines 370 to 373: destination path
`slot directory / (nfo stem + video extension)`. -/
def destPath (v nfo : String) : String :=
  pathJoin (dirname nfo) (stemOf nfo ++ extOf v)

/-- Line 390: first path segment of the nfo path relative to the media root. -/
def serieFolder (nfo root : String) : String :=
  let rel := if (root ++ "/").isPrefixOf nfo then nfo.drop (root ++ "/").length else nfo
  String.mk ((splitOnChar '/' rel.toList).headD [])

/-- Body of the inner loop of `place_files` (lines 362 to 394) for one
`(video, nfo, score)` triple: gate check, then skip-if-exists, then the
placement call chosen by `placement_mode == 'c'` (line 381). A successful
call of either mode creates the destination and appends to `placed_files`
and `updated_series`. A failing copy raises into the per-triple `except`
branch (only the error log changes), but a failing hardlink is swallowed
inside `create_atomic_link`, so the appends at lines 387 to 391 run anyway:
the video enters `placed_files` with no file created. -/
def stepTriple (mode : String) (opOk : String → String → Bool)
    (content : String → String) (root : String) (st : PlaceState)
    (t : String × String × ℚ) : PlaceState :=
  let v := t.1
  let nfo := t.2.1
  if gateCond v nfo then
    { st with gateLogs := st.gateLogs ++ [(v, nfo)] }
  else
    let dest := destPath v nfo
    if (dictLookup st.fs dest).isSome then st
    else if mode == "c" then
      if opOk v dest then
        { st with fs := st.fs ++ [(dest, content v)],
                  placed := st.placed ++ [v],
                  series := st.series ++ [serieFolder nfo root] }
      else
        { st with errors := st.errors ++ [(v, dest)] }
    else
      if opOk v dest then
        { st with fs := st.fs ++ [(dest, content v)],
                  placed := st.placed ++ [v],
                  series := st.series ++ [serieFolder nfo root] }
      else
        { st with placed := st.placed ++ [v],
                  series := st.series ++ [serieFolder nfo root],
                  linkErrors := st.linkErrors ++ [(v, dest)] }

/-- Lines 350 to 354: merge of the standard matches into a copy of the
One-Piece dict — an existing video key gets the pair appended to its option
list, a new video key goes to the end with a singleton list. -/
def addStandard (acc : List (String × List (String × ℚ))) (m : String × String × ℚ) :
    List (String × List (String × ℚ)) :=
  if acc.any (fun p => p.1 == m.1) then
    acc.map (fun p => if p.1 == m.1 then (p.1, p.2 ++ [(m.2.1, m.2.2)]) else p)
  else acc ++ [(m.1, [(m.2.1, m.2.2)])]

/-- The nested loops of lines 357 to 394, folded over the merged dict. -/
def placeLoop (mode : String) (opOk : String → String → Bool)
    (content : String → String) (root : String) (st : PlaceState)
    (allM : List (String × List (String × ℚ))) : PlaceState :=
  allM.foldl
    (fun s p => p.2.foldl (fun s1 o => stepTriple mode opOk content root s1 (p.1, o.1, o.2)) s)
    st

/-- Model of `FilePlacer.place_files(standard_matches, op_matches,
placement_mode, media_root)` run over the filesystem `fs0`; `mode` is the
`placement_mode` string, copy mode being `"c"` as at line 381. The
atomicity difference of copy mode under interruption is modelled separately
by `copyFileStates`. -/
def place_files (mode : String) (opOk : String → String → Bool)
    (content : String → String) (std : List (String × String × ℚ))
    (op : List (String × List (String × ℚ))) (root : String)
    (fs0 : List (String × String)) : PlaceState :=
  placeLoop mode opOk content root (PlaceState.init fs0) (std.foldl addStandard op)

/-- Flattening of the merged dict into `(video, nfo, score)` triples in
processing order. -/
def flatTriples (allM : List (String × List (String × ℚ))) : List (String × String × ℚ) :=
  allM.flatMap (fun p => p.2.map (fun o => (p.1, o.1, o.2)))

/-- Left fold of `stepTriple` over a flat triple list. -/
def tripsFold (mode : String) (opOk : String → String → Bool)
    (content : String → String) (root : String) (st : PlaceState)
    (ts : List (String × String × ℚ)) : PlaceState :=
  ts.foldl (stepTriple mode opOk content root) st

/-! ## Copy-mode placement under interruption (lines 247 to 250)

`FileSystemManager.copy_file` calls `shutil.copy2(source, destination)`,
which opens the destination path itself for writing (creating it empty) and
then appends the source content chunk by chunk: every prefix of the content
is an observable filesystem state at the final destination path. -/

/-- Write a content value at a path: a fresh path is appended, an existing
one is overwritten in place (the open-for-write truncation). -/
def fsWrite (fs : List (String × String)) (p c : String) : List (String × String) :=
  dictInsert fs p c

/-- The sequence of filesystem states produced by `shutil.copy2` writing
`chunks` to `dest` over `fs`: state `i` has the first `i` chunks visible at
the destination path, state `0` being the just-opened empty file. -/
def copyFileStates (chunks : List String) (dest : String) (fs : List (String × String)) :
    List (List (String × String)) :=
  (List.range (chunks.length + 1)).map (fun i => fsWrite fs dest (String.join (chunks.take i)))

-- sanity: the second state of a two-chunk copy shows a truncated file
example :
    dictLookup ((copyFileStates ["ab", "cd"] "m/x.mkv" []).getD 1 []) "m/x.mkv" = some "ab" := by
  decide

/-! ## Library lemmas on the dictionary, sorting and extraction models -/

theorem dictLookup_cons {α : Type} (k : String) (v : α) (rest : List (String × α))
    (q : String) :
    dictLookup ((k, v) :: rest) q = if k == q then some v else dictLookup rest q := rfl

theorem dictLookup_append_left {α : Type} (l m : List (String × α)) (p : String)
    (h : (dictLookup l p).isSome) : dictLookup (l ++ m) p = dictLookup l p := by
  induction l with
  | nil => simp [dictLookup] at h
  | cons e rest ih =>
    rw [List.cons_append, dictLookup_cons, dictLookup_cons]
    rw [dictLookup_cons] at h
    by_cases hk : e.1 == p
    · simp [hk]
    · simp only [hk, if_false] at h ⊢
      exact ih h

theorem dictLookup_append_right {α : Type} (l m : List (String × α)) (p : String)
    (h : dictLookup l p = none) : dictLookup (l ++ m) p = dictLookup m p := by
  induction l with
  | nil => simp
  | cons e rest ih =>
    rw [List.cons_append, dictLookup_cons]
    rw [dictLookup_cons] at h
    by_cases hk : e.1 == p
    · simp [hk] at h
    · simp only [hk, if_false] at h ⊢
      exact ih h

theorem dictLookup_append_singleton_isSome {α : Type} (l : List (String × α)) (k : String)
    (v : α) : (dictLookup (l ++ [(k, v)]) k).isSome := by
  cases h : dictLookup l k with
  | some w => rw [dictLookup_append_left l _ k (by simp [h])]; simp [h]
  | none => rw [dictLookup_append_right l _ k h]; simp [dictLookup]

theorem dictLookup_append_singleton_cases {α : Type} (l : List (String × α)) (k p : String)
    (v : α) (h : (dictLookup (l ++ [(k, v)]) p).isSome) :
    (dictLookup l p).isSome ∨ p = k := by
  cases hl : dictLookup l p with
  | some w => exact Or.inl (by simp [hl])
  | none =>
    rw [dictLookup_append_right l _ p hl, dictLookup_cons] at h
    by_cases hk : k == p
    · exact Or.inr (eq_of_beq hk).symm
    · simp [hk, dictLookup] at h

theorem dictLookup_dictInsert_self {α : Type} (l : List (String × α)) (k : String) (v : α) :
    dictLookup (dictInsert l k v) k = some v := by
  induction l with
  | nil => simp [dictInsert, dictLookup]
  | cons e rest ih =>
    obtain ⟨k0, v0⟩ := e
    by_cases hk : k0 == k
    · simp [dictInsert, hk, dictLookup_cons]
    · simp [dictInsert, hk, dictLookup_cons, ih]

theorem mem_insertDesc (x y : String × ℚ) (l : List (String × ℚ)) :
    y ∈ insertDesc x l ↔ y = x ∨ y ∈ l := by
  induction l with
  | nil => simp [insertDesc]
  | cons h t ih =>
    by_cases hc : h.2 ≤ x.2
    · simp [insertDesc, hc]
    · simp [insertDesc, hc, ih]
      tauto

theorem mem_sortScoreDesc (y : String × ℚ) (l : List (String × ℚ)) :
    y ∈ sortScoreDesc l ↔ y ∈ l := by
  induction l with
  | nil => simp [sortScoreDesc]
  | cons h t ih =>
    simp only [sortScoreDesc, List.foldr_cons] at *
    rw [mem_insertDesc, ih, List.mem_cons]

theorem length_insertDesc (x : String × ℚ) (l : List (String × ℚ)) :
    (insertDesc x l).length = l.length + 1 := by
  induction l with
  | nil => simp [insertDesc]
  | cons h t ih =>
    by_cases hc : h.2 ≤ x.2
    · simp [insertDesc, hc]
    · simp [insertDesc, hc, ih]

theorem length_sortScoreDesc (l : List (String × ℚ)) :
    (sortScoreDesc l).length = l.length := by
  induction l with
  | nil => rfl
  | cons h t ih =>
    simp only [sortScoreDesc, List.foldr_cons] at *
    rw [length_insertDesc, ih, List.length_cons]

/-- Every pair returned by the extraction model comes from a choice and
reaches the cutoff. -/
theorem extractMulti_mem_sub (ratio : String → String → ℚ) (q : String)
    (choices : List String) (c : ℚ) (lim : Nat) (p : String × ℚ)
    (hp : p ∈ extractMulti ratio q choices (some c) lim) :
    p.1 ∈ choices ∧ p.2 = ratio q p.1 ∧ c ≤ p.2 := by
  have h1 : p ∈ sortScoreDesc ((choices.map (fun k => (k, ratio q k))).filter
      (fun x => decide (c ≤ x.2))) := List.take_subset _ _ hp
  rw [mem_sortScoreDesc] at h1
  rw [List.mem_filter] at h1
  obtain ⟨h2, h3⟩ := h1
  rw [List.mem_map] at h2
  obtain ⟨k, hk, hkeq⟩ := h2
  subst hkeq
  exact ⟨hk, rfl, of_decide_eq_true h3⟩

/-- When at most `lim` choices reach the cutoff, every choice reaching it is
returned by the extraction model. -/
theorem extractMulti_mem_of_le (ratio : String → String → ℚ) (q : String)
    (choices : List String) (c : ℚ) (lim : Nat) (k : String)
    (hk : k ∈ choices) (hs : c ≤ ratio q k)
    (hlen : ((choices.map (fun x => (x, ratio q x))).filter
        (fun x => decide (c ≤ x.2))).length ≤ lim) :
    (k, ratio q k) ∈ extractMulti ratio q choices (some c) lim := by
  unfold extractMulti
  rw [List.take_of_length_le (by rw [length_sortScoreDesc]; exact hlen)]
  rw [mem_sortScoreDesc, List.mem_filter]
  refine ⟨List.mem_map.2 ⟨k, hk, rfl⟩, by simpa using hs⟩

/-! ## Characterization of the matcher outputs by the per-video outcome -/

/-- The per-video outcome of `find_matches` on its prepared dictionaries. -/
def sourceOutcome (ratio : String → String → ℚ) (nfos : List String)
    (rd : List (String × String)) (T : ℚ) (video : String) : MatchOutcome :=
  let nb := buildNfoBasenames nfos
  matchSource ratio rd nb (nb.filter (fun p => lowerContains p.1 "one piece"))
    (nb.filter (fun p => !(lowerContains p.1 "one piece"))) T video

theorem find_matches_eq (ratio : String → String → ℚ) (videos nfos : List String)
    (rd : List (String × String)) (T : ℚ) :
    find_matches ratio videos nfos rd T =
      findMatchesAux ratio rd (buildNfoBasenames nfos)
        ((buildNfoBasenames nfos).filter (fun p => lowerContains p.1 "one piece"))
        ((buildNfoBasenames nfos).filter (fun p => !(lowerContains p.1 "one piece")))
        T videos := rfl

theorem aux_std_mem (ratio : String → String → ℚ) (rd nb opd nod : List (String × String))
    (T : ℚ) (v nfo : String) (s : ℚ) (videos : List String) :
    (v, nfo, s) ∈ (findMatchesAux ratio rd nb opd nod T videos).1 ↔
      v ∈ videos ∧
        ((matchSource ratio rd nb opd nod T v = MatchOutcome.override nfo ∧ s = 101) ∨
          matchSource ratio rd nb opd nod T v = MatchOutcome.standard nfo s) := by
  induction videos with
  | nil => simp [findMatchesAux]
  | cons h t ih =>
    by_cases hv : v = h
    · subst hv
      cases hm : matchSource ratio rd nb opd nod T v <;>
        simp [findMatchesAux, hm, List.mem_cons, ih, Prod.ext_iff] <;> tauto
    · cases hm : matchSource ratio rd nb opd nod T h <;>
        simp [findMatchesAux, hm, List.mem_cons, ih, hv, Prod.ext_iff] <;> tauto

theorem aux_unm_mem (ratio : String → String → ℚ) (rd nb opd nod : List (String × String))
    (T : ℚ) (v : String) (l : List (String × ℚ)) (videos : List String) :
    (v, l) ∈ (findMatchesAux ratio rd nb opd nod T videos).2.1 ↔
      v ∈ videos ∧ matchSource ratio rd nb opd nod T v = MatchOutcome.unmatched l := by
  induction videos with
  | nil => simp [findMatchesAux]
  | cons h t ih =>
    by_cases hv : v = h
    · subst hv
      cases hm : matchSource ratio rd nb opd nod T v <;>
        simp [findMatchesAux, hm, List.mem_cons, ih, Prod.ext_iff] <;> tauto
    · cases hm : matchSource ratio rd nb opd nod T h <;>
        simp [findMatchesAux, hm, List.mem_cons, ih, hv, Prod.ext_iff] <;> tauto

theorem aux_op_mem (ratio : String → String → ℚ) (rd nb opd nod : List (String × String))
    (T : ℚ) (v : String) (l : List (String × ℚ)) (videos : List String) :
    (v, l) ∈ (findMatchesAux ratio rd nb opd nod T videos).2.2 ↔
      v ∈ videos ∧ matchSource ratio rd nb opd nod T v = MatchOutcome.fanout l := by
  induction videos with
  | nil => simp [findMatchesAux]
  | cons h t ih =>
    by_cases hv : v = h
    · subst hv
      cases hm : matchSource ratio rd nb opd nod T v <;>
        simp [findMatchesAux, hm, List.mem_cons, ih, Prod.ext_iff] <;> tauto
    · cases hm : matchSource ratio rd nb opd nod T h <;>
        simp [findMatchesAux, hm, List.mem_cons, ih, hv, Prod.ext_iff] <;> tauto

/-! ## The four per-source categories of the matcher output -/

/-- The source was assigned through the rename-dict branch: its outcome is an
override and the standard-matches list holds it with the literal score 101. -/
def assignedViaOverride (ratio : String → String → ℚ) (videos nfos : List String)
    (rd : List (String × String)) (T : ℚ) (v : String) : Prop :=
  ∃ nfo, sourceOutcome ratio nfos rd T v = MatchOutcome.override nfo ∧
    (v, nfo, (101 : ℚ)) ∈ (find_matches ratio videos nfos rd T).1

/-- The source was assigned through the One-Piece fan-out: its outcome is a
fan-out and the One-Piece dict holds its destination list. -/
def assignedViaFanout (ratio : String → String → ℚ) (videos nfos : List String)
    (rd : List (String × String)) (T : ℚ) (v : String) : Prop :=
  ∃ l, sourceOutcome ratio nfos rd T v = MatchOutcome.fanout l ∧
    (v, l) ∈ (find_matches ratio videos nfos rd T).2.2

/-- The source was assigned through the standard single-best branch. -/
def assignedViaStandard (ratio : String → String → ℚ) (videos nfos : List String)
    (rd : List (String × String)) (T : ℚ) (v : String) : Prop :=
  ∃ nfo s, sourceOutcome ratio nfos rd T v = MatchOutcome.standard nfo s ∧
    (v, nfo, s) ∈ (find_matches ratio videos nfos rd T).1

/-- The source was recorded as unmatched with its suggestion list. -/
def recordedUnmatched (ratio : String → String → ℚ) (videos nfos : List String)
    (rd : List (String × String)) (T : ℚ) (v : String) : Prop :=
  ∃ l, sourceOutcome ratio nfos rd T v = MatchOutcome.unmatched l ∧
    (v, l) ∈ (find_matches ratio videos nfos rd T).2.1

/-- C9: partition invariant of the Matcher — for every input, each source file
of the scanned list lands in exactly one of the four outputs of
`find_matches`: assigned via override, assigned via One-Piece fan-out,
assigned via the standard single-best match, or recorded unmatched with
suggestions; never in zero of them and never in more than one. -/
theorem matcher_partition (ratio : String → String → ℚ) (videos nfos : List String)
    (rd : List (String × String)) (T : ℚ) (v : String) (hv : v ∈ videos) :
    (assignedViaOverride ratio videos nfos rd T v ∨
      assignedViaFanout ratio videos nfos rd T v ∨
      assignedViaStandard ratio videos nfos rd T v ∨
      recordedUnmatched ratio videos nfos rd T v)
    ∧ ¬(assignedViaOverride ratio videos nfos rd T v ∧
        assignedViaFanout ratio videos nfos rd T v)
    ∧ ¬(assignedViaOverride ratio videos nfos rd T v ∧
        assignedViaStandard ratio videos nfos rd T v)
    ∧ ¬(assignedViaOverride ratio videos nfos rd T v ∧
        recordedUnmatched ratio videos nfos rd T v)
    ∧ ¬(assignedViaFanout ratio videos nfos rd T v ∧
        assignedViaStandard ratio videos nfos rd T v)
    ∧ ¬(assignedViaFanout ratio videos nfos rd T v ∧
        recordedUnmatched ratio videos nfos rd T v)
    ∧ ¬(assignedViaStandard ratio videos nfos rd T v ∧
        recordedUnmatched ratio videos nfos rd T v) := by
  constructor
  · cases hm : sourceOutcome ratio nfos rd T v with
    | override nfo =>
      exact Or.inl ⟨nfo, hm, by
        rw [find_matches_eq, aux_std_mem]
        exact ⟨hv, Or.inl ⟨hm, rfl⟩⟩⟩
    | fanout l =>
      exact Or.inr (Or.inl ⟨l, hm, by
        rw [find_matches_eq, aux_op_mem]
        exact ⟨hv, hm⟩⟩)
    | standard nfo s =>
      exact Or.inr (Or.inr (Or.inl ⟨nfo, s, hm, by
        rw [find_matches_eq, aux_std_mem]
        exact ⟨hv, Or.inr hm⟩⟩))
    | unmatched l =>
      exact Or.inr (Or.inr (Or.inr ⟨l, hm, by
        rw [find_matches_eq, aux_unm_mem]
        exact ⟨hv, hm⟩⟩))
  · refine ⟨?_, ?_, ?_, ?_, ?_, ?_⟩
    · rintro ⟨⟨a, ha, -⟩, ⟨b, hb, -⟩⟩; rw [ha] at hb; cases hb
    · rintro ⟨⟨a, ha, -⟩, ⟨b, s, hb, -⟩⟩; rw [ha] at hb; cases hb
    · rintro ⟨⟨a, ha, -⟩, ⟨b, hb, -⟩⟩; rw [ha] at hb; cases hb
    · rintro ⟨⟨a, ha, -⟩, ⟨b, s, hb, -⟩⟩; rw [ha] at hb; cases hb
    · rintro ⟨⟨a, ha, -⟩, ⟨b, hb, -⟩⟩; rw [ha] at hb; cases hb
    · rintro ⟨⟨a, s, ha, -⟩, ⟨b, hb, -⟩⟩; rw [ha] at hb; cases hb

/-- Witness for the partition theorem at a concrete input. -/
theorem matcher_partition_witness :
    (assignedViaOverride witRatioA [videoA] nfosA [] 95 videoA ∨
      assignedViaFanout witRatioA [videoA] nfosA [] 95 videoA ∨
      assignedViaStandard witRatioA [videoA] nfosA [] 95 videoA ∨
      recordedUnmatched witRatioA [videoA] nfosA [] 95 videoA)
    ∧ ¬(assignedViaFanout witRatioA [videoA] nfosA [] 95 videoA ∧
        recordedUnmatched witRatioA [videoA] nfosA [] 95 videoA) :=
  ⟨(matcher_partition witRatioA [videoA] nfosA [] 95 videoA (by decide)).1,
   (matcher_partition witRatioA [videoA] nfosA [] 95 videoA (by decide)).2.2.2.2.2.1⟩

/-- C1: override supremacy — whenever the video basename has a rename-dict
entry whose target exists among the nfo basenames, the matcher assigns
exactly that single slot, with the score 101, which is strictly greater than
any fuzzy score achievable (fuzzy scores lie in [0, 100]), regardless of any
other slot's fuzzy score against that source. -/
theorem override_supremacy (ratio : String → String → ℚ) (videos nfos : List String)
    (rd : List (String × String)) (T : ℚ) (v tgt nfo : String)
    (hv : v ∈ videos)
    (hrd : dictLookup rd (stemOf v) = some tgt)
    (hnb : dictLookup (buildNfoBasenames nfos) tgt = some nfo)
    (hb : ∀ a b, ratio a b ≤ 100) :
    ((v, nfo, (101 : ℚ)) ∈ (find_matches ratio videos nfos rd T).1
      ∧ ∀ nfo2 s, (v, nfo2, s) ∈ (find_matches ratio videos nfos rd T).1 →
          nfo2 = nfo ∧ s = 101)
    ∧ (∀ l, (v, l) ∉ (find_matches ratio videos nfos rd T).2.2)
    ∧ (∀ l, (v, l) ∉ (find_matches ratio videos nfos rd T).2.1)
    ∧ ∀ a b, ratio a b < 101 := by
  have hout : matchSource ratio rd (buildNfoBasenames nfos)
      ((buildNfoBasenames nfos).filter (fun p => lowerContains p.1 "one piece"))
      ((buildNfoBasenames nfos).filter (fun p => !(lowerContains p.1 "one piece")))
      T v = MatchOutcome.override nfo := by
    simp [matchSource, hrd, hnb]
  refine ⟨⟨?_, ?_⟩, ?_, ?_, ?_⟩
  · rw [find_matches_eq, aux_std_mem]
    exact ⟨hv, Or.inl ⟨hout, rfl⟩⟩
  · intro nfo2 s hmem
    rw [find_matches_eq, aux_std_mem] at hmem
    rcases hmem.2 with ⟨h1, h2⟩ | h1
    · rw [hout] at h1
      cases h1
      exact ⟨rfl, h2⟩
    · rw [hout] at h1
      cases h1
  · intro l hmem
    rw [find_matches_eq, aux_op_mem] at hmem
    rw [hout] at hmem
    cases hmem.2
  · intro l hmem
    rw [find_matches_eq, aux_unm_mem] at hmem
    rw [hout] at hmem
    cases hmem.2
  · intro a b
    exact lt_of_le_of_lt (hb a b) (by norm_num)

/-- Rename dict and slot list for the override-supremacy witness: the target
exists among the slots while another slot would score 100 by fuzz. -/
def rdW : List (String × String) := [("one piece pilot", "k")]

/-- Slot list for the override-supremacy witness. -/
def nfosW : List String := ["m/x/k.nfo", "m/one piece/one piece pilot.nfo"]

/-- Witness for override supremacy at a concrete input: the override target
is assigned with score 101 even though another slot scores 100 by fuzz. -/
theorem override_supremacy_witness :
    (videoA, "m/x/k.nfo", (101 : ℚ)) ∈ (find_matches witRatioA [videoA] nfosW rdW 95).1
    ∧ witRatioA "one piece pilot" "one piece pilot" = 100 :=
  ⟨(override_supremacy witRatioA [videoA] nfosW rdW 95 videoA "k" "m/x/k.nfo"
      (by decide) (by decide) (by decide)
      (fun a b => min_le_right _ _)).1.1,
   by decide⟩

/-! ## C6: priority order of the four matching steps -/

/-- Rename dict whose target is absent from the slots, for the C6 fixture. -/
def rdB : List (String × String) := [("one piece pilot", "ghost")]

/-- Slot list of the C6 fixture: a single One-Piece slot whose basename
equals the video basename, so fuzz scores it 100. -/
def nfosB : List String := ["m/one piece/one piece pilot.nfo"]

/-- C6 counterexample: a One-Piece source whose rename entry points at an
absent target is NOT routed through the step-2 fan-out — here an One-Piece
slot scores 100 (at or above the threshold 95), yet the fan-out output is
empty and the source falls through to the unmatched list, because the
rename branch and the fan-out branch form an if/elif pair. -/
theorem override_miss_skips_fanout_cx :
    (find_matches witRatioA [videoA] nfosB rdB 95).2.2 = []
    ∧ (find_matches witRatioA [videoA] nfosB rdB 95).2.1 =
        [(videoA, [("one piece pilot", 100)])]
    ∧ witRatioA "one piece pilot" "one piece pilot" = 100
    ∧ dictLookup rdB "one piece pilot" = some "ghost"
    ∧ dictLookup (buildNfoBasenames nfosB) "ghost" = none := by decide

/-- C6 (amended): the four matching steps run in strict priority order,
stopping at the first that yields an outcome, with the amendment forced by
the code's if/elif structure: a rename entry whose target is absent among
the slots makes step 1 yield nothing and skips step 2 entirely — evaluation
falls through directly to the shared standard-then-suggestions path, even
for a One-Piece source. -/
theorem priority_order (ratio : String → String → ℚ)
    (rd nb opd nod : List (String × String)) (T : ℚ) (v : String) :
    (∀ tgt nfo, dictLookup rd (stemOf v) = some tgt → dictLookup nb tgt = some nfo →
        matchSource ratio rd nb opd nod T v = MatchOutcome.override nfo)
    ∧ (∀ tgt, dictLookup rd (stemOf v) = some tgt → dictLookup nb tgt = none →
        matchSource ratio rd nb opd nod T v =
          standardOrUnmatched ratio nb nod T (stemOf v))
    ∧ (dictLookup rd (stemOf v) = none → lowerContains (stemOf v) "one piece" = true →
        (extractMulti ratio (stemOf v) (opd.map Prod.fst) (some T) 5).isEmpty = true →
        matchSource ratio rd nb opd nod T v =
          standardOrUnmatched ratio nb nod T (stemOf v))
    ∧ (dictLookup rd (stemOf v) = none → lowerContains (stemOf v) "one piece" = true →
        (extractMulti ratio (stemOf v) (opd.map Prod.fst) (some T) 5).isEmpty = false →
        matchSource ratio rd nb opd nod T v = MatchOutcome.fanout
          ((extractMulti ratio (stemOf v) (opd.map Prod.fst) (some T) 5).map
            (fun m => ((dictLookup opd m.1).getD "", m.2))))
    ∧ (dictLookup rd (stemOf v) = none → lowerContains (stemOf v) "one piece" = false →
        matchSource ratio rd nb opd nod T v =
          standardOrUnmatched ratio nb nod T (stemOf v)) := by
  refine ⟨?_, ?_, ?_, ?_, ?_⟩
  · intro tgt nfo h1 h2; simp [matchSource, h1, h2]
  · intro tgt h1 h2; simp [matchSource, h1, h2]
  · intro h1 h2 h3; simp [matchSource, h1, h2, h3]
  · intro h1 h2 h3; simp [matchSource, h1, h2, h3]
  · intro h1 h2; simp [matchSource, h1, h2]

/-- Witness for the priority-order theorem at the C6 fixture: the rename
entry exists, its target is absent, and the outcome equals the shared
standard-then-suggestions fall-through. -/
theorem priority_order_witness :
    matchSource witRatioA rdB (buildNfoBasenames nfosB)
        ((buildNfoBasenames nfosB).filter (fun p => lowerContains p.1 "one piece"))
        ((buildNfoBasenames nfosB).filter (fun p => !(lowerContains p.1 "one piece")))
        95 videoA
      = standardOrUnmatched witRatioA (buildNfoBasenames nfosB)
          ((buildNfoBasenames nfosB).filter (fun p => !(lowerContains p.1 "one piece")))
          95 (stemOf videoA) :=
  (priority_order witRatioA rdB (buildNfoBasenames nfosB)
      ((buildNfoBasenames nfosB).filter (fun p => lowerContains p.1 "one piece"))
      ((buildNfoBasenames nfosB).filter (fun p => !(lowerContains p.1 "one piece")))
      95 videoA).2.1 "ghost" (by decide) (by decide)

/-! ## C3: the fan-out is capped at five destinations -/

/-- Raw score table for the fan-out-cap fixture: six One-Piece slots score
from 100 down to 95 against the same video basename. -/
def tableC (a b : String) : ℚ :=
  if a == "one piece x" && b == "one piece a" then 100
  else if a == "one piece x" && b == "one piece b" then 99
  else if a == "one piece x" && b == "one piece c" then 98
  else if a == "one piece x" && b == "one piece d" then 97
  else if a == "one piece x" && b == "one piece e" then 96
  else if a == "one piece x" && b == "one piece f" then 95
  else if a == b then 100 else 0

/-- Concrete scorer for the fan-out-cap fixture, capped at 100. -/
def witRatioC (a b : String) : ℚ := min (tableC a b) 100

/-- Six One-Piece slots, all scoring at or above the threshold 95. -/
def nfosC : List String :=
  ["m/1/one piece a.nfo", "m/2/one piece b.nfo", "m/3/one piece c.nfo",
   "m/4/one piece d.nfo", "m/5/one piece e.nfo", "m/6/one piece f.nfo"]

/-- C3 evaluated at its failing input: six One-Piece slots reach the
threshold, yet the fan-out assignment list holds only the top five — the
`process.extract` call at line 307 passes no `limit` argument, so the
rapidfuzz default `limit=5` caps the list, contradicting both the claim and
the code's own comment that ALL matches above the threshold are collected. -/
theorem fanout_capped_at_five :
    ((buildNfoBasenames nfosC).filter
        (fun p => decide ((95 : ℚ) ≤ witRatioC "one piece x" p.1))).length = 6
    ∧ (find_matches witRatioC ["d/one piece x.mkv"] nfosC [] 95).2.2 =
        [("d/one piece x.mkv",
          [("m/1/one piece a.nfo", 100), ("m/2/one piece b.nfo", 99),
           ("m/3/one piece c.nfo", 98), ("m/4/one piece d.nfo", 97),
           ("m/5/one piece e.nfo", 96)])] := by decide

/-! ## C8: inclusive threshold semantics -/

theorem standardOrUnmatched_ne_fanout (ratio : String → String → ℚ)
    (nb nod : List (String × String)) (T : ℚ) (vb : String) (l : List (String × ℚ)) :
    standardOrUnmatched ratio nb nod T vb ≠ MatchOutcome.fanout l := by
  unfold standardOrUnmatched
  cases hb : extractBest ratio vb (nod.map Prod.fst) with
  | none => simp
  | some p =>
    obtain ⟨k, s⟩ := p
    by_cases hT : T ≤ s <;> simp [hT]

theorem standardOrUnmatched_standard_ge (ratio : String → String → ℚ)
    (nb nod : List (String × String)) (T : ℚ) (vb nfo : String) (s : ℚ)
    (h : standardOrUnmatched ratio nb nod T vb = MatchOutcome.standard nfo s) : T ≤ s := by
  unfold standardOrUnmatched at h
  cases hb : extractBest ratio vb (nod.map Prod.fst) with
  | none => rw [hb] at h; simp at h
  | some p =>
    obtain ⟨k, s0⟩ := p
    simp only [hb] at h
    by_cases hT : T ≤ s0
    · simp only [hT, if_true] at h
      cases h
      exact hT
    · simp only [hT, if_false] at h
      cases h

/-- A fan-out outcome always carries exactly the mapped extraction list. -/
theorem matchSource_fanout_inv (ratio : String → String → ℚ)
    (rd nb opd nod : List (String × String)) (T : ℚ) (v : String) (l : List (String × ℚ))
    (h : matchSource ratio rd nb opd nod T v = MatchOutcome.fanout l) :
    l = (extractMulti ratio (stemOf v) (opd.map Prod.fst) (some T) 5).map
        (fun m => ((dictLookup opd m.1).getD "", m.2)) := by
  unfold matchSource at h
  cases hrd : dictLookup rd (stemOf v) with
  | some tgt =>
    simp only [hrd] at h
    cases hnb : dictLookup nb tgt with
    | some nfo => simp only [hnb] at h; cases h
    | none =>
      simp only [hnb] at h
      exact absurd h (standardOrUnmatched_ne_fanout ratio nb nod T (stemOf v) l)
  | none =>
    simp only [hrd] at h
    by_cases hop : lowerContains (stemOf v) "one piece"
    · simp only [hop, if_true] at h
      by_cases hpm : (extractMulti ratio (stemOf v) (opd.map Prod.fst) (some T) 5).isEmpty
      · simp only [hpm, if_true] at h
        exact absurd h (standardOrUnmatched_ne_fanout ratio nb nod T (stemOf v) l)
      · simp only [hpm, if_false] at h
        cases h
        rfl
    · simp only [Bool.not_eq_true] at hop
      simp only [hop, if_false] at h
      exact absurd h (standardOrUnmatched_ne_fanout ratio nb nod T (stemOf v) l)

/-- Raw score table for the suggestion fixture: one slot scores 94, one below
the default threshold 95. -/
def tableD (a b : String) : ℚ :=
  if a == "solo" && b == "naruto 01" then 94 else if a == b then 100 else 0

/-- Concrete scorer for the suggestion fixture, capped at 100. -/
def witRatioD (a b : String) : ℚ := min (tableD a b) 100

/-- Slot list of the suggestion fixture. -/
def nfosD : List String := ["m/naruto/naruto 01.nfo"]

/-- C8: threshold inclusivity with the default T = 95 — (a) every fan-out
assignment scores at least 95 and (b) every standard assignment scores at
least 95, so a slot scoring 94 is never assigned through steps 2 or 3;
(c) a One-Piece candidate scoring exactly 95 is assigned through the step-2
fan-out (whenever the five-slot cap is not hit); (d) a standard best
candidate scoring exactly 95 is assigned through step 3; and (e) a slot
scoring 94 can still appear among the step-4 suggestions of an unmatched
source, as the concrete instance shows. -/
theorem threshold_inclusive (ratio : String → String → ℚ)
    (rd nb opd nod : List (String × String)) (v k : String) :
    (∀ l p, matchSource ratio rd nb opd nod 95 v = MatchOutcome.fanout l → p ∈ l →
        (95 : ℚ) ≤ p.2)
    ∧ (∀ nfo s, matchSource ratio rd nb opd nod 95 v = MatchOutcome.standard nfo s →
        (95 : ℚ) ≤ s)
    ∧ (dictLookup rd (stemOf v) = none → lowerContains (stemOf v) "one piece" = true →
        k ∈ opd.map Prod.fst → ratio (stemOf v) k = 95 →
        (((opd.map Prod.fst).map (fun x => (x, ratio (stemOf v) x))).filter
            (fun x => decide ((95 : ℚ) ≤ x.2))).length ≤ 5 →
        ∃ l, matchSource ratio rd nb opd nod 95 v = MatchOutcome.fanout l ∧
          ((dictLookup opd k).getD "", (95 : ℚ)) ∈ l)
    ∧ (∀ k2, dictLookup rd (stemOf v) = none →
        lowerContains (stemOf v) "one piece" = false →
        extractBest ratio (stemOf v) (nod.map Prod.fst) = some (k2, 95) →
        matchSource ratio rd nb opd nod 95 v =
          MatchOutcome.standard ((dictLookup nod k2).getD "") 95)
    ∧ (find_matches witRatioD ["d/solo.mkv"] nfosD [] 95).2.1 =
        [("d/solo.mkv", [("naruto 01", 94)])] := by
  refine ⟨?_, ?_, ?_, ?_, by decide⟩
  · intro l p hl hp
    rw [matchSource_fanout_inv ratio rd nb opd nod 95 v l hl] at hp
    rw [List.mem_map] at hp
    obtain ⟨m, hm, hmp⟩ := hp
    have := (extractMulti_mem_sub ratio (stemOf v) (opd.map Prod.fst) 95 5 m hm).2.2
    rw [← hmp]
    exact this
  · intro nfo s h
    unfold matchSource at h
    cases hrd : dictLookup rd (stemOf v) with
    | some tgt =>
      simp only [hrd] at h
      cases hnb : dictLookup nb tgt with
      | some nfo2 => simp only [hnb] at h; cases h
      | none =>
        simp only [hnb] at h
        exact standardOrUnmatched_standard_ge ratio nb nod 95 (stemOf v) nfo s h
    | none =>
      simp only [hrd] at h
      by_cases hop : lowerContains (stemOf v) "one piece"
      · simp only [hop, if_true] at h
        by_cases hpm : (extractMulti ratio (stemOf v) (opd.map Prod.fst) (some 95) 5).isEmpty
        · simp only [hpm, if_true] at h
          exact standardOrUnmatched_standard_ge ratio nb nod 95 (stemOf v) nfo s h
        · simp only [hpm, if_false] at h
          cases h
      · simp only [Bool.not_eq_true] at hop
        simp only [hop, if_false] at h
        exact standardOrUnmatched_standard_ge ratio nb nod 95 (stemOf v) nfo s h
  · intro h1 h2 h3 h4 h5
    have hmem : (k, ratio (stemOf v) k) ∈
        extractMulti ratio (stemOf v) (opd.map Prod.fst) (some 95) 5 :=
      extractMulti_mem_of_le ratio (stemOf v) (opd.map Prod.fst) 95 5 k h3
        (by rw [h4]) h5
    rw [h4] at hmem
    have hne : (extractMulti ratio (stemOf v) (opd.map Prod.fst) (some 95) 5).isEmpty
        = false := by
      cases hx : extractMulti ratio (stemOf v) (opd.map Prod.fst) (some 95) 5 with
      | nil => rw [hx] at hmem; cases hmem
      | cons a as => simp [hx]
    refine ⟨(extractMulti ratio (stemOf v) (opd.map Prod.fst) (some 95) 5).map
        (fun m => ((dictLookup opd m.1).getD "", m.2)), ?_, ?_⟩
    · unfold matchSource
      simp only [h1, h2, if_true, hne, Bool.false_eq_true, if_false]
    · exact List.mem_map.2 ⟨(k, 95), hmem, rfl⟩
  · intro k2 h1 h2 h3
    unfold matchSource
    simp only [h1, h2, if_false]
    unfold standardOrUnmatched
    rw [h3]
    simp

/-- Single slot list for the threshold witness: one One-Piece slot scoring
exactly the threshold. -/
def nfosT : List String := ["m/6/one piece f.nfo"]

/-- Witness for the threshold-inclusivity theorem at a concrete input: a
One-Piece slot scoring exactly 95 is assigned through the fan-out. -/
theorem threshold_inclusive_witness :
    ∃ l, matchSource witRatioC [] (buildNfoBasenames nfosT)
        ((buildNfoBasenames nfosT).filter (fun p => lowerContains p.1 "one piece"))
        ((buildNfoBasenames nfosT).filter (fun p => !(lowerContains p.1 "one piece")))
        95 "d/one piece x.mkv" = MatchOutcome.fanout l
      ∧ ("m/6/one piece f.nfo", (95 : ℚ)) ∈ l := by
  have h := (threshold_inclusive witRatioC [] (buildNfoBasenames nfosT)
      ((buildNfoBasenames nfosT).filter (fun p => lowerContains p.1 "one piece"))
      ((buildNfoBasenames nfosT).filter (fun p => !(lowerContains p.1 "one piece")))
      "d/one piece x.mkv" "one piece f").2.2.1
      (by decide) (by decide) (by decide) (by decide) (by decide)
  obtain ⟨l, hl, hm⟩ := h
  refine ⟨l, hl, ?_⟩
  have hd : ((dictLookup ((buildNfoBasenames nfosT).filter
      (fun p => lowerContains p.1 "one piece")) "one piece f").getD "")
      = "m/6/one piece f.nfo" := by decide
  rw [hd] at hm
  exact hm

/-! ## Lemmas on the placement fold -/

theorem tripsFold_cons (mode : String) (opOk : String → String → Bool)
    (content : String → String) (root : String) (st : PlaceState)
    (t : String × String × ℚ) (ts : List (String × String × ℚ)) :
    tripsFold mode opOk content root st (t :: ts) =
      tripsFold mode opOk content root (stepTriple mode opOk content root st t) ts := rfl

theorem tripsFold_append (mode : String) (opOk : String → String → Bool)
    (content : String → String) (root : String)
    (ts1 ts2 : List (String × String × ℚ)) (st : PlaceState) :
    tripsFold mode opOk content root st (ts1 ++ ts2) =
      tripsFold mode opOk content root (tripsFold mode opOk content root st ts1) ts2 :=
  List.foldl_append _ _ _ _

/-- The nested dict-and-options loops equal the fold over the flattened
triple list. -/
theorem placeLoop_eq_tripsFold (mode : String) (opOk : String → String → Bool)
    (content : String → String) (root : String) (st : PlaceState)
    (allM : List (String × List (String × ℚ))) :
    placeLoop mode opOk content root st allM =
      tripsFold mode opOk content root st (flatTriples allM) := by
  induction allM generalizing st with
  | nil => rfl
  | cons h t ih =>
    simp only [placeLoop, List.foldl_cons, flatTriples, List.flatMap_cons] at *
    rw [tripsFold_append]
    rw [← ih]
    congr 1
    unfold tripsFold
    rw [List.foldl_map]

theorem place_files_eq (mode : String) (opOk : String → String → Bool)
    (content : String → String) (std : List (String × String × ℚ))
    (op : List (String × List (String × ℚ))) (root : String)
    (fs0 : List (String × String)) :
    place_files mode opOk content std op root fs0 =
      tripsFold mode opOk content root (PlaceState.init fs0)
        (flatTriples (std.foldl addStandard op)) :=
  placeLoop_eq_tripsFold _ _ _ _ _ _

theorem stepTriple_gate (mode : String) (opOk : String → String → Bool)
    (content : String → String) (root : String) (st : PlaceState)
    (t : String × String × ℚ) (h : gateCond t.1 t.2.1 = true) :
    stepTriple mode opOk content root st t =
      { st with gateLogs := st.gateLogs ++ [(t.1, t.2.1)] } := by
  unfold stepTriple
  simp [h]

theorem stepTriple_skip (mode : String) (opOk : String → String → Bool)
    (content : String → String) (root : String) (st : PlaceState)
    (t : String × String × ℚ) (hg : gateCond t.1 t.2.1 = false)
    (he : (dictLookup st.fs (destPath t.1 t.2.1)).isSome = true) :
    stepTriple mode opOk content root st t = st := by
  unfold stepTriple
  simp [hg, he]

/-- A successful placement behaves the same in both modes: the destination
is created and the video and its serie folder are appended. -/
theorem stepTriple_success (mode : String) (opOk : String → String → Bool)
    (content : String → String) (root : String) (st : PlaceState)
    (t : String × String × ℚ) (hg : gateCond t.1 t.2.1 = false)
    (he : (dictLookup st.fs (destPath t.1 t.2.1)).isSome = false)
    (ho : opOk t.1 (destPath t.1 t.2.1) = true) :
    stepTriple mode opOk content root st t =
      { st with fs := st.fs ++ [(destPath t.1 t.2.1, content t.1)],
                placed := st.placed ++ [t.1],
                series := st.series ++ [serieFolder t.2.1 root] } := by
  unfold stepTriple
  simp [hg, he, ho]

/-- A failing copy raises into the per-triple except branch: only the error
log changes. -/
theorem stepTriple_fail_copy (mode : String) (opOk : String → String → Bool)
    (content : String → String) (root : String) (st : PlaceState)
    (t : String × String × ℚ) (hg : gateCond t.1 t.2.1 = false)
    (he : (dictLookup st.fs (destPath t.1 t.2.1)).isSome = false)
    (ho : opOk t.1 (destPath t.1 t.2.1) = false) (hm : (mode == "c") = true) :
    stepTriple mode opOk content root st t =
      { st with errors := st.errors ++ [(t.1, destPath t.1 t.2.1)] } := by
  unfold stepTriple
  simp [hg, he, ho, hm]

/-- A failing hardlink is swallowed inside `create_atomic_link`: the video
is appended to the placed list and its serie folder recorded although no
file was created; only the internal link-error log witnesses the failure. -/
theorem stepTriple_fail_link (mode : String) (opOk : String → String → Bool)
    (content : String → String) (root : String) (st : PlaceState)
    (t : String × String × ℚ) (hg : gateCond t.1 t.2.1 = false)
    (he : (dictLookup st.fs (destPath t.1 t.2.1)).isSome = false)
    (ho : opOk t.1 (destPath t.1 t.2.1) = false) (hm : (mode == "c") = false) :
    stepTriple mode opOk content root st t =
      { st with placed := st.placed ++ [t.1],
                series := st.series ++ [serieFolder t.2.1 root],
                linkErrors := st.linkErrors ++ [(t.1, destPath t.1 t.2.1)] } := by
  unfold stepTriple
  simp [hg, he, ho, hm]

/-- One placement step never changes what an already-present path holds. -/
theorem stepTriple_fs_preserve (mode : String) (opOk : String → String → Bool)
    (content : String → String) (root : String) (st : PlaceState)
    (t : String × String × ℚ) (p : String) (h : (dictLookup st.fs p).isSome) :
    dictLookup (stepTriple mode opOk content root st t).fs p = dictLookup st.fs p := by
  cases hg : gateCond t.1 t.2.1 with
  | true => rw [stepTriple_gate mode opOk content root st t hg]
  | false =>
    cases he : (dictLookup st.fs (destPath t.1 t.2.1)).isSome with
    | true => rw [stepTriple_skip mode opOk content root st t hg he]
    | false =>
      cases ho : opOk t.1 (destPath t.1 t.2.1) with
      | true =>
        rw [stepTriple_success mode opOk content root st t hg he ho]
        exact dictLookup_append_left _ _ _ h
      | false =>
        cases hm : mode == "c" with
        | true => rw [stepTriple_fail_copy mode opOk content root st t hg he ho hm]
        | false => rw [stepTriple_fail_link mode opOk content root st t hg he ho hm]

/-- A failing placement changes neither the filesystem nor the error-free
part of the state shared by both modes: whatever the mode, the step of a
failing triple leaves the filesystem untouched. -/
theorem stepTriple_fail_fs (mode : String) (opOk : String → String → Bool)
    (content : String → String) (root : String) (st : PlaceState)
    (t : String × String × ℚ) (hg : gateCond t.1 t.2.1 = false)
    (he : (dictLookup st.fs (destPath t.1 t.2.1)).isSome = false)
    (ho : opOk t.1 (destPath t.1 t.2.1) = false) :
    (stepTriple mode opOk content root st t).fs = st.fs := by
  cases hm : mode == "c" with
  | true => rw [stepTriple_fail_copy mode opOk content root st t hg he ho hm]
  | false => rw [stepTriple_fail_link mode opOk content root st t hg he ho hm]

/-- The whole placement fold never changes what an already-present path
holds. -/
theorem tripsFold_fs_preserve (mode : String) (opOk : String → String → Bool)
    (content : String → String) (root : String) (ts : List (String × String × ℚ))
    (st : PlaceState) (p : String) (h : (dictLookup st.fs p).isSome) :
    dictLookup (tripsFold mode opOk content root st ts).fs p = dictLookup st.fs p := by
  induction ts generalizing st with
  | nil => rfl
  | cons t rest ih =>
    rw [tripsFold_cons]
    have h1 := stepTriple_fs_preserve mode opOk content root st t p h
    rw [ih (stepTriple mode opOk content root st t) (by rw [h1]; exact h), h1]

/-- After the fold, every triple of the batch is settled: gated, present at
its destination, or bound to fail. -/
theorem tripsFold_resolved (mode : String) (opOk : String → String → Bool)
    (content : String → String) (root : String) (ts : List (String × String × ℚ))
    (st : PlaceState) (t : String × String × ℚ) (ht : t ∈ ts) :
    gateCond t.1 t.2.1 = true
    ∨ (dictLookup (tripsFold mode opOk content root st ts).fs
        (destPath t.1 t.2.1)).isSome = true
    ∨ opOk t.1 (destPath t.1 t.2.1) = false := by
  induction ts generalizing st with
  | nil => cases ht
  | cons t0 rest ih =>
    rcases List.mem_cons.1 ht with rfl | hmem
    · cases hg : gateCond t.1 t.2.1 with
      | true => exact Or.inl rfl
      | false =>
        cases he : (dictLookup st.fs (destPath t.1 t.2.1)).isSome with
        | true =>
          refine Or.inr (Or.inl ?_)
          rw [tripsFold_cons]
          have h1 := stepTriple_fs_preserve mode opOk content root st t
            (destPath t.1 t.2.1) he
          rw [tripsFold_fs_preserve mode opOk content root rest _ _
            (by rw [h1]; exact he), h1]
          exact he
        | false =>
          cases ho : opOk t.1 (destPath t.1 t.2.1) with
          | true =>
            refine Or.inr (Or.inl ?_)
            rw [tripsFold_cons, stepTriple_success mode opOk content root st t hg he ho]
            have h2 : (dictLookup (st.fs ++ [(destPath t.1 t.2.1, content t.1)])
                (destPath t.1 t.2.1)).isSome :=
              dictLookup_append_singleton_isSome st.fs (destPath t.1 t.2.1) (content t.1)
            rw [tripsFold_fs_preserve mode opOk content root rest _ _ h2]
            exact h2
          | false => exact Or.inr (Or.inr rfl)
    · exact ih (stepTriple mode opOk content root st t0) hmem

/-- A fold in which every triple is already settled leaves the filesystem
unchanged, in either mode. -/
theorem tripsFold_noop_fs (mode : String) (opOk : String → String → Bool)
    (content : String → String) (root : String) (ts : List (String × String × ℚ))
    (st : PlaceState)
    (h : ∀ t ∈ ts, gateCond t.1 t.2.1 = true
        ∨ (dictLookup st.fs (destPath t.1 t.2.1)).isSome = true
        ∨ opOk t.1 (destPath t.1 t.2.1) = false) :
    (tripsFold mode opOk content root st ts).fs = st.fs := by
  induction ts generalizing st with
  | nil => rfl
  | cons t rest ih =>
    have hstep : (stepTriple mode opOk content root st t).fs = st.fs := by
      rcases h t (List.mem_cons_self t rest) with hg | he | ho
      · rw [stepTriple_gate mode opOk content root st t hg]
      · cases hg : gateCond t.1 t.2.1 with
        | true => rw [stepTriple_gate mode opOk content root st t hg]
        | false => rw [stepTriple_skip mode opOk content root st t hg he]
      · cases hg : gateCond t.1 t.2.1 with
        | true => rw [stepTriple_gate mode opOk content root st t hg]
        | false =>
          cases he : (dictLookup st.fs (destPath t.1 t.2.1)).isSome with
          | true => rw [stepTriple_skip mode opOk content root st t hg he]
          | false => exact stepTriple_fail_fs mode opOk content root st t hg he ho
    rw [tripsFold_cons]
    have hrest := ih (stepTriple mode opOk content root st t)
      (fun t2 ht2 => by rw [hstep]; exact h t2 (List.mem_cons_of_mem t ht2))
    rw [hrest, hstep]

/-- A fold in which every triple is gated or already present also leaves the
placed list unchanged, in either mode (no failing triple is reached, so the
hardlink swallow path never fires). -/
theorem tripsFold_noop_strong (mode : String) (opOk : String → String → Bool)
    (content : String → String) (root : String) (ts : List (String × String × ℚ))
    (st : PlaceState)
    (h : ∀ t ∈ ts, gateCond t.1 t.2.1 = true
        ∨ (dictLookup st.fs (destPath t.1 t.2.1)).isSome = true) :
    (tripsFold mode opOk content root st ts).fs = st.fs
    ∧ (tripsFold mode opOk content root st ts).placed = st.placed := by
  induction ts generalizing st with
  | nil => exact ⟨rfl, rfl⟩
  | cons t rest ih =>
    have hstep : (stepTriple mode opOk content root st t).fs = st.fs
        ∧ (stepTriple mode opOk content root st t).placed = st.placed := by
      rcases h t (List.mem_cons_self t rest) with hg | he
      · rw [stepTriple_gate mode opOk content root st t hg]
        exact ⟨rfl, rfl⟩
      · cases hg : gateCond t.1 t.2.1 with
        | true =>
          rw [stepTriple_gate mode opOk content root st t hg]
          exact ⟨rfl, rfl⟩
        | false =>
          rw [stepTriple_skip mode opOk content root st t hg he]
          exact ⟨rfl, rfl⟩
    rw [tripsFold_cons]
    have hrest := ih (stepTriple mode opOk content root st t)
      (fun t2 ht2 => by rw [hstep.1]; exact h t2 (List.mem_cons_of_mem t ht2))
    exact ⟨by rw [hrest.1, hstep.1], by rw [hrest.2, hstep.2]⟩

/-- In copy mode a fold in which every triple is settled changes neither the
filesystem nor the placed list: failures go to the except branch only. -/
theorem tripsFold_noop_copy (mode : String) (opOk : String → String → Bool)
    (content : String → String) (root : String) (ts : List (String × String × ℚ))
    (st : PlaceState) (hm : (mode == "c") = true)
    (h : ∀ t ∈ ts, gateCond t.1 t.2.1 = true
        ∨ (dictLookup st.fs (destPath t.1 t.2.1)).isSome = true
        ∨ opOk t.1 (destPath t.1 t.2.1) = false) :
    (tripsFold mode opOk content root st ts).fs = st.fs
    ∧ (tripsFold mode opOk content root st ts).placed = st.placed := by
  induction ts generalizing st with
  | nil => exact ⟨rfl, rfl⟩
  | cons t rest ih =>
    have hstep : (stepTriple mode opOk content root st t).fs = st.fs
        ∧ (stepTriple mode opOk content root st t).placed = st.placed := by
      rcases h t (List.mem_cons_self t rest) with hg | he | ho
      · rw [stepTriple_gate mode opOk content root st t hg]
        exact ⟨rfl, rfl⟩
      · cases hg : gateCond t.1 t.2.1 with
        | true =>
          rw [stepTriple_gate mode opOk content root st t hg]
          exact ⟨rfl, rfl⟩
        | false =>
          rw [stepTriple_skip mode opOk content root st t hg he]
          exact ⟨rfl, rfl⟩
      · cases hg : gateCond t.1 t.2.1 with
        | true =>
          rw [stepTriple_gate mode opOk content root st t hg]
          exact ⟨rfl, rfl⟩
        | false =>
          cases he : (dictLookup st.fs (destPath t.1 t.2.1)).isSome with
          | true =>
            rw [stepTriple_skip mode opOk content root st t hg he]
            exact ⟨rfl, rfl⟩
          | false =>
            rw [stepTriple_fail_copy mode opOk content root st t hg he ho hm]
            exact ⟨rfl, rfl⟩
    rw [tripsFold_cons]
    have hrest := ih (stepTriple mode opOk content root st t)
      (fun t2 ht2 => by rw [hstep.1]; exact h t2 (List.mem_cons_of_mem t ht2))
    exact ⟨by rw [hrest.1, hstep.1], by rw [hrest.2, hstep.2]⟩

/-- A source lands in the placed list only through an ungated triple whose
operation succeeded — or, outside copy mode, through an ungated triple
whose failed hardlink was swallowed. -/
theorem tripsFold_placed_mem (mode : String) (opOk : String → String → Bool)
    (content : String → String) (root : String) (ts : List (String × String × ℚ))
    (st : PlaceState) (v : String)
    (h : v ∈ (tripsFold mode opOk content root st ts).placed) :
    v ∈ st.placed ∨ ∃ nfo sc, (v, nfo, sc) ∈ ts ∧ gateCond v nfo = false
      ∧ (opOk v (destPath v nfo) = true ∨ (mode == "c") = false) := by
  induction ts generalizing st with
  | nil => exact Or.inl h
  | cons t rest ih =>
    rw [tripsFold_cons] at h
    rcases ih (stepTriple mode opOk content root st t) h with
      hin | ⟨nfo, sc, hmem, hgf, hok⟩
    · cases hg : gateCond t.1 t.2.1 with
      | true =>
        rw [stepTriple_gate mode opOk content root st t hg] at hin
        exact Or.inl hin
      | false =>
        cases he : (dictLookup st.fs (destPath t.1 t.2.1)).isSome with
        | true =>
          rw [stepTriple_skip mode opOk content root st t hg he] at hin
          exact Or.inl hin
        | false =>
          cases ho : opOk t.1 (destPath t.1 t.2.1) with
          | true =>
            rw [stepTriple_success mode opOk content root st t hg he ho] at hin
            simp only [List.mem_append, List.mem_singleton] at hin
            rcases hin with hin | rfl
            · exact Or.inl hin
            · exact Or.inr ⟨t.2.1, t.2.2, List.mem_cons_self t rest, hg, Or.inl ho⟩
          | false =>
            cases hm : mode == "c" with
            | true =>
              rw [stepTriple_fail_copy mode opOk content root st t hg he ho hm] at hin
              exact Or.inl hin
            | false =>
              rw [stepTriple_fail_link mode opOk content root st t hg he ho hm] at hin
              simp only [List.mem_append, List.mem_singleton] at hin
              rcases hin with hin | rfl
              · exact Or.inl hin
              · exact Or.inr ⟨t.2.1, t.2.2, List.mem_cons_self t rest, hg, Or.inr rfl⟩
    · exact Or.inr ⟨nfo, sc, List.mem_cons_of_mem t hmem, hgf, hok⟩

/-- Every path present after the fold was present before or is the
destination of an ungated triple of the batch. -/
theorem tripsFold_fs_provenance (mode : String) (opOk : String → String → Bool)
    (content : String → String) (root : String) (ts : List (String × String × ℚ))
    (st : PlaceState) (p : String)
    (h : (dictLookup (tripsFold mode opOk content root st ts).fs p).isSome) :
    (dictLookup st.fs p).isSome = true
    ∨ ∃ t ∈ ts, p = destPath t.1 t.2.1 ∧ gateCond t.1 t.2.1 = false := by
  induction ts generalizing st with
  | nil => exact Or.inl h
  | cons t rest ih =>
    rw [tripsFold_cons] at h
    rcases ih (stepTriple mode opOk content root st t) h with hin | ⟨t2, hmem, hdest, hg2⟩
    · cases hg : gateCond t.1 t.2.1 with
      | true =>
        rw [stepTriple_gate mode opOk content root st t hg] at hin
        exact Or.inl hin
      | false =>
        cases he : (dictLookup st.fs (destPath t.1 t.2.1)).isSome with
        | true =>
          rw [stepTriple_skip mode opOk content root st t hg he] at hin
          exact Or.inl hin
        | false =>
          cases ho : opOk t.1 (destPath t.1 t.2.1) with
          | true =>
            rw [stepTriple_success mode opOk content root st t hg he ho] at hin
            rcases dictLookup_append_singleton_cases st.fs (destPath t.1 t.2.1) p
              (content t.1) hin with hsome | rfl
            · exact Or.inl hsome
            · exact Or.inr ⟨t, List.mem_cons_self t rest, rfl, hg⟩
          | false =>
            rw [stepTriple_fail_fs mode opOk content root st t hg he ho] at hin
            exact Or.inl hin
    · exact Or.inr ⟨t2, List.mem_cons_of_mem t hmem, hdest, hg2⟩

/-! ## C4 and C5: idempotence and partial-failure semantics

Both claims fail on the hardlink path of the program: a failing `os.link`
is caught and swallowed inside `create_atomic_link` (lines 237 to 245), so
`place_files` sees no exception and line 387 appends the video to
`placed_files` although no link was created. -/

/-- Standard batch shared by the placement counterexamples and witnesses. -/
def wStd : List (String × String × ℚ) := [("d/a.mkv", "m/s/e1.nfo", 100)]

/-- C4 counterexample: in hardlink mode a persistently failing `os.link`
(for instance the cross-device error against which the help text of the
script warns) is swallowed inside `create_atomic_link`, so the source is
appended to `placed_files` on the first run without any file being created
— and the second run over the produced (unchanged) filesystem appends it
again: the second run's placed list is NOT empty. -/
theorem second_run_placed_cx :
    (place_files "h" (fun _ _ => false) (fun _ => "c") wStd [] "m"
        (place_files "h" (fun _ _ => false) (fun _ => "c") wStd [] "m" []).fs).placed
      = ["d/a.mkv"]
    ∧ (place_files "h" (fun _ _ => false) (fun _ => "c") wStd [] "m" []).fs = [] := by
  decide

/-- C4 (amended): idempotent, non-overwriting placement — a triple whose
computed destination path already exists changes nothing (no mutation, no
error log of either kind, no placed entry); a run never changes what an
existing destination path holds (no replacement); a second Placer run over
the filesystem produced by a first run with the same inputs yields an
identical filesystem in every mode; and the second run's placed list is
empty in copy mode, as well as in hardlink mode whenever every link attempt
succeeds — but not for a hardlink-mode source whose link keeps failing,
since the swallowed `os.link` error re-appends it on every run. -/
theorem placement_idempotent (mode : String) (opOk : String → String → Bool)
    (content : String → String) (std : List (String × String × ℚ))
    (op : List (String × List (String × ℚ))) (root : String)
    (fs0 : List (String × String)) :
    (∀ st t, (dictLookup st.fs (destPath t.1 t.2.1)).isSome = true →
        ((stepTriple mode opOk content root st t).fs = st.fs
          ∧ (stepTriple mode opOk content root st t).placed = st.placed
          ∧ (stepTriple mode opOk content root st t).errors = st.errors
          ∧ (stepTriple mode opOk content root st t).linkErrors = st.linkErrors))
    ∧ (∀ p, (dictLookup fs0 p).isSome = true →
        dictLookup (place_files mode opOk content std op root fs0).fs p
          = dictLookup fs0 p)
    ∧ (place_files mode opOk content std op root
          (place_files mode opOk content std op root fs0).fs).fs
        = (place_files mode opOk content std op root fs0).fs
    ∧ ((mode == "c") = true →
        (place_files mode opOk content std op root
          (place_files mode opOk content std op root fs0).fs).placed = [])
    ∧ ((∀ a b, opOk a b = true) →
        (place_files mode opOk content std op root
          (place_files mode opOk content std op root fs0).fs).placed = []) := by
  refine ⟨?_, ?_, ?_, ?_, ?_⟩
  · intro st t he
    cases hg : gateCond t.1 t.2.1 with
    | true =>
      rw [stepTriple_gate mode opOk content root st t hg]
      exact ⟨rfl, rfl, rfl, rfl⟩
    | false =>
      rw [stepTriple_skip mode opOk content root st t hg he]
      exact ⟨rfl, rfl, rfl, rfl⟩
  · intro p hp
    rw [place_files_eq]
    exact tripsFold_fs_preserve mode opOk content root _ (PlaceState.init fs0) p hp
  · rw [place_files_eq, place_files_eq]
    exact tripsFold_noop_fs mode opOk content root _
      (PlaceState.init (tripsFold mode opOk content root (PlaceState.init fs0)
        (flatTriples (std.foldl addStandard op))).fs)
      (fun t ht => tripsFold_resolved mode opOk content root
        (flatTriples (std.foldl addStandard op)) (PlaceState.init fs0) t ht)
  · intro hm
    rw [place_files_eq, place_files_eq]
    exact (tripsFold_noop_copy mode opOk content root _
      (PlaceState.init (tripsFold mode opOk content root (PlaceState.init fs0)
        (flatTriples (std.foldl addStandard op))).fs) hm
      (fun t ht => tripsFold_resolved mode opOk content root
        (flatTriples (std.foldl addStandard op)) (PlaceState.init fs0) t ht)).2
  · intro hok
    rw [place_files_eq, place_files_eq]
    refine (tripsFold_noop_strong mode opOk content root _
      (PlaceState.init (tripsFold mode opOk content root (PlaceState.init fs0)
        (flatTriples (std.foldl addStandard op))).fs)
      (fun t ht => ?_)).2
    rcases tripsFold_resolved mode opOk content root
        (flatTriples (std.foldl addStandard op)) (PlaceState.init fs0) t ht with
      hg | he | ho
    · exact Or.inl hg
    · exact Or.inr he
    · rw [hok t.1 (destPath t.1 t.2.1)] at ho
      cases ho

/-- Witness for the amended idempotence theorem at a concrete input: in
copy mode the first run places the source and the second run over the
produced filesystem places nothing. -/
theorem placement_idempotent_witness :
    (place_files "c" (fun _ _ => true) (fun _ => "c") wStd [] "m" []).placed
        = ["d/a.mkv"]
    ∧ (place_files "c" (fun _ _ => true) (fun _ => "c") wStd [] "m"
        (place_files "c" (fun _ _ => true) (fun _ => "c") wStd [] "m" []).fs).placed
        = [] :=
  ⟨by decide,
   (placement_idempotent "c" (fun _ _ => true) (fun _ => "c") wStd [] "m" []).2.2.2.1
     (by decide)⟩

/-- C5 counterexample: in hardlink mode a source none of whose placements
succeeded still appears in the returned placed list — the failing `os.link`
is swallowed inside `create_atomic_link` (only its internal error log
records it), the filesystem stays empty, the per-triple except branch is
never reached, and `placed_files` nevertheless holds the source. -/
theorem placed_without_success_cx :
    (place_files "h" (fun _ _ => false) (fun _ => "c") wStd [] "m" []).placed
        = ["d/a.mkv"]
    ∧ (place_files "h" (fun _ _ => false) (fun _ => "c") wStd [] "m" []).fs = []
    ∧ (place_files "h" (fun _ _ => false) (fun _ => "c") wStd [] "m" []).errors = []
    ∧ (place_files "h" (fun _ _ => false) (fun _ => "c") wStd [] "m" []).linkErrors
        = [("d/a.mkv", "m/s/e1.mkv")] := by decide

/-- C5 (amended): partial-failure semantics — the fold decomposes over any
batch split, so every remaining triple is processed regardless of earlier
failures, and the placed list is success-only in copy mode: a copy-mode
failure reaches the per-triple except branch, appending only the
source/destination context to the error log, so a source appears in the
copy-mode placed list only through an ungated triple whose copy succeeded.
In hardlink mode, however, a failing `os.link` is caught and swallowed
inside `create_atomic_link`, and the source is appended to the placed list
although no link was created. -/
theorem placement_partial_failure (opOk : String → String → Bool)
    (content : String → String) (std : List (String × String × ℚ))
    (op : List (String × List (String × ℚ))) (root : String)
    (fs0 : List (String × String)) :
    (∀ v, v ∈ (place_files "c" opOk content std op root fs0).placed →
        ∃ nfo sc, (v, nfo, sc) ∈ flatTriples (std.foldl addStandard op)
          ∧ gateCond v nfo = false ∧ opOk v (destPath v nfo) = true)
    ∧ (∀ st t, gateCond t.1 t.2.1 = false →
        (dictLookup st.fs (destPath t.1 t.2.1)).isSome = false →
        opOk t.1 (destPath t.1 t.2.1) = false →
        stepTriple "c" opOk content root st t
          = { st with errors := st.errors ++ [(t.1, destPath t.1 t.2.1)] })
    ∧ (∀ mode st t, (mode == "c") = false → gateCond t.1 t.2.1 = false →
        (dictLookup st.fs (destPath t.1 t.2.1)).isSome = false →
        opOk t.1 (destPath t.1 t.2.1) = false →
        stepTriple mode opOk content root st t
          = { st with placed := st.placed ++ [t.1],
                      series := st.series ++ [serieFolder t.2.1 root],
                      linkErrors := st.linkErrors ++ [(t.1, destPath t.1 t.2.1)] })
    ∧ (∀ mode ts1 ts2 st, tripsFold mode opOk content root st (ts1 ++ ts2)
        = tripsFold mode opOk content root
            (tripsFold mode opOk content root st ts1) ts2) := by
  refine ⟨?_, ?_, ?_, ?_⟩
  · intro v hv
    rw [place_files_eq] at hv
    rcases tripsFold_placed_mem "c" opOk content root _ (PlaceState.init fs0) v hv with
      hin | ⟨nfo, sc, hmem, hgf, hok | hmf⟩
    · cases hin
    · exact ⟨nfo, sc, hmem, hgf, hok⟩
    · cases hmf
  · exact fun st t hg he ho => stepTriple_fail_copy "c" opOk content root st t hg he ho rfl
  · exact fun mode st t hm hg he ho =>
      stepTriple_fail_link mode opOk content root st t hg he ho hm
  · exact fun mode ts1 ts2 st => tripsFold_append mode opOk content root ts1 ts2 st

/-- Operation oracle for the partial-failure witness: placing the first
source fails, every other placement succeeds. -/
def wOpOk5 : String → String → Bool := fun v _ => v != "d/a.mkv"

/-- Standard batch for the partial-failure witness. -/
def wStd5 : List (String × String × ℚ) :=
  [("d/a.mkv", "m/s/e1.nfo", 100), ("d/b.mkv", "m/s/e2.nfo", 100)]

/-- Witness for the amended partial-failure theorem at a concrete copy-mode
input: the first triple fails and is logged, the second is still placed,
and the placed source is certified to come from a successful ungated
triple. -/
theorem placement_partial_failure_witness :
    (place_files "c" wOpOk5 (fun _ => "c") wStd5 [] "m" []).placed = ["d/b.mkv"]
    ∧ (place_files "c" wOpOk5 (fun _ => "c") wStd5 [] "m" []).errors
        = [("d/a.mkv", "m/s/e1.mkv")]
    ∧ ∃ nfo sc, ("d/b.mkv", nfo, sc) ∈ flatTriples (wStd5.foldl addStandard [])
        ∧ gateCond "d/b.mkv" nfo = false
        ∧ wOpOk5 "d/b.mkv" (destPath "d/b.mkv" nfo) = true :=
  ⟨by decide, by decide,
   (placement_partial_failure wOpOk5 (fun _ => "c") wStd5 [] "m" []).1 "d/b.mkv"
     (by decide)⟩

/-! ## C10 and C2: the release-variant gate lives in the Placer -/

/-- C10: the Placer re-applies the release-variant gate to every triple it
receives for a One-Piece source — the gate branch fires before the
existence check, in both placement modes, for any state and any score (101
override triples and 102 manual-resolution triples included), leaving
everything except the warning log unchanged; consequently the filesystem
never gains a file except at the destination of a triple that passed the
gate. -/
theorem placer_regates_every_triple (mode : String) (opOk : String → String → Bool)
    (content : String → String) (std : List (String × String × ℚ))
    (op : List (String × List (String × ℚ))) (root : String)
    (fs0 : List (String × String)) :
    (∀ st v nfo (sc : ℚ), lowerContains (basename v) "one piece" = true →
        lowerContains (basename v) "yabai" = false →
        lowerContains nfo "one piece yabai" = true →
        stepTriple mode opOk content root st (v, nfo, sc)
          = { st with gateLogs := st.gateLogs ++ [(v, nfo)] })
    ∧ (∀ p, (dictLookup (place_files mode opOk content std op root fs0).fs p).isSome
          = true →
        (dictLookup fs0 p).isSome = true
        ∨ ∃ t ∈ flatTriples (std.foldl addStandard op),
            p = destPath t.1 t.2.1 ∧ gateCond t.1 t.2.1 = false) := by
  constructor
  · intro st v nfo sc h1 h2 h3
    exact stepTriple_gate mode opOk content root st (v, nfo, sc)
      (by simp [gateCond, h1, h2, h3])
  · intro p hp
    rw [place_files_eq] at hp
    exact tripsFold_fs_provenance mode opOk content root _ (PlaceState.init fs0) p hp

/-- Witness for the Placer-gate theorem at a concrete input: in hardlink
mode, a manual-resolution triple with the synthetic score 102 and an absent
destination is still gate-skipped, mutating nothing but the warning log. -/
theorem placer_regates_witness :
    stepTriple "h" (fun _ _ => true) (fun _ => "c") "m" (PlaceState.init [])
        ("d/one piece pilot.mkv", "m/one piece yabai/one piece yabai p.nfo", 102)
      = { PlaceState.init [] with
          gateLogs := [("d/one piece pilot.mkv",
            "m/one piece yabai/one piece yabai p.nfo")] } :=
  (placer_regates_every_triple "h" (fun _ _ => true) (fun _ => "c") [] [] "m" []).1
    (PlaceState.init []) "d/one piece pilot.mkv"
    "m/one piece yabai/one piece yabai p.nfo" 102 (by decide) (by decide) (by decide)

/-- C2 counterexample: release-variant gating does NOT happen in the
Matcher — in the gating scenario the untagged One-Piece source scores at or
above the threshold against both the gated Yabai slot and the ungated slot,
and the Matcher's fan-out assignment list for it still CONTAINS the gated
slot (score 96 ≥ 95), refuting its exclusion from the assignment list. -/
theorem matcher_gate_cx :
    ("m/one piece yabai/one piece yabai p.nfo", (96 : ℚ)) ∈
      ((find_matches witRatioA [videoA] nfosA [] 95).2.2.headD ("", [])).2
    ∧ ("m/one piece kai/one piece kai p.nfo", (97 : ℚ)) ∈
      ((find_matches witRatioA [videoA] nfosA [] 95).2.2.headD ("", [])).2
    ∧ gateCond videoA "m/one piece yabai/one piece yabai p.nfo" = true := by decide

/-- C2 (amended): release-variant gating happens in the Placer — a gated
triple is skipped by the placement step with only a warning logged, in
either mode, regardless of score and state; hence in the gating scenario
the untagged source, fanned out by the Matcher to both destinations, ends
up placed at the ungated destination only, the gated candidate being logged
as a skip. -/
theorem release_variant_gating (mode : String) (opOk : String → String → Bool)
    (content : String → String) (root : String) (st : PlaceState)
    (v nfo : String) (sc : ℚ) (hg : gateCond v nfo = true) :
    ((stepTriple mode opOk content root st (v, nfo, sc)).fs = st.fs
      ∧ (stepTriple mode opOk content root st (v, nfo, sc)).placed = st.placed
      ∧ (stepTriple mode opOk content root st (v, nfo, sc)).gateLogs
          = st.gateLogs ++ [(v, nfo)])
    ∧ (let out := find_matches witRatioA [videoA] nfosA [] 95
       let res := place_files "h" (fun _ _ => true) (fun _ => "data")
         out.1 out.2.2 "m" []
       dictLookup res.fs (destPath videoA "m/one piece kai/one piece kai p.nfo")
           = some "data"
         ∧ dictLookup res.fs (destPath videoA "m/one piece yabai/one piece yabai p.nfo")
             = none
         ∧ res.placed = [videoA]
         ∧ res.gateLogs = [(videoA, "m/one piece yabai/one piece yabai p.nfo")]) := by
  constructor
  · rw [stepTriple_gate mode opOk content root st (v, nfo, sc) hg]
    exact ⟨rfl, rfl, rfl⟩
  · decide

/-- Witness for the amended gating theorem at a concrete input. -/
theorem release_variant_gating_witness :
    (stepTriple "h" (fun _ _ => true) (fun _ => "x") "m" (PlaceState.init [])
        (videoA, "m/one piece yabai/one piece yabai p.nfo", 96)).placed = [] :=
  (release_variant_gating "h" (fun _ _ => true) (fun _ => "x") "m" (PlaceState.init [])
      videoA "m/one piece yabai/one piece yabai p.nfo" 96 (by decide)).1.2.1

/-! ## C7: copy-mode placement under interruption -/

/-- C7 counterexample: copy-mode placement writes through the final
destination path — after the first of two chunks the destination path
exists and holds a strict prefix of the content, a visible truncated file. -/
theorem copy_truncation_cx :
    dictLookup ((copyFileStates ["ab", "cd"] "m/x.mkv" []).getD 1 []) "m/x.mkv"
        = some "ab"
    ∧ "ab" ≠ "abcd"
    ∧ dictLookup ((copyFileStates ["ab", "cd"] "m/x.mkv" []).getD 2 []) "m/x.mkv"
        = some "abcd" := by decide

/-- C7 (amended): `shutil.copy2` completes the write at the final
destination path itself, not at an invisible location — intermediate state
`i` of an interrupted copy holds exactly the first `i` chunks of the source
content, visible at the destination path, with only the last state holding
the complete content. -/
theorem copy_states_char (chunks : List String) (dest : String)
    (fs : List (String × String)) (i : Nat) (h : i ≤ chunks.length) :
    dictLookup ((copyFileStates chunks dest fs).getD i []) dest
      = some (String.join (chunks.take i)) := by
  unfold copyFileStates fsWrite
  rw [List.getD_eq_getElem?_getD, List.getElem?_map,
    List.getElem?_range (show i < chunks.length + 1 by omega)]
  exact dictLookup_dictInsert_self fs dest _

/-- Witness for the copy-state characterization at a concrete input. -/
theorem copy_states_char_witness :
    dictLookup ((copyFileStates ["uv", "wx"] "m/y.mkv" []).getD 1 []) "m/y.mkv"
      = some (String.join (["uv", "wx"].take 1)) :=
  copy_states_char ["uv", "wx"] "m/y.mkv" [] 1 (by decide)

end Fankai
